import Mathlib

/-!
Verification of the coupon-enumeration core of the repository.

The definitions below are a shallow embedding of `src/coupon_generator.py`,
`src/main.py`, `src/browser_manager.py` and `src/config.py`.  Randomness
(`random.choice`) is modelled by passing the chosen index in as an argument;
the append-only text files are modelled as lists of lines; the in-memory
Python sets are modelled as `Finset String`.
-/

namespace CouponV

/-- `Config.BASE_PATTERN` from `src/config.py`. -/
def basePattern : String := "881a0eb9570ae493b60b39e71eeaa03a"

/-- The hard-coded `digit_positions` list shared by the five systematic
generators in `src/coupon_generator.py`. -/
def digitPositions : List Nat := [0, 1, 2, 4, 6, 8, 9, 13, 15, 16, 18, 20, 22, 25, 29, 30]

/-- The hard-coded `letter_positions` list shared by the five systematic
generators in `src/coupon_generator.py`. -/
def letterPositions : List Nat := [3, 5, 7, 10, 11, 12, 14, 17, 19, 21, 23, 24, 26, 27, 28, 31]

/-- Write `f i` at index `ps[i]` of `cs`, for every entry of `ps`; this is the
`for i, pos in enumerate(positions): coupon[pos] = f(i)` idiom of the five
systematic generators. -/
def fillPositions (cs : List Char) (ps : List Nat) (f : Nat → Char) : List Char :=
  ps.enum.foldl (fun acc ip => acc.set ip.2 (f ip.1)) cs

/-- `CouponGenerator._pattern_sequential` (lines 133-149). -/
def patternSequential : String :=
  String.mk
    (fillPositions
      (fillPositions (List.replicate 32 '0') digitPositions (fun i => Nat.digitChar (i % 10)))
      letterPositions (fun i => Char.ofNat (97 + i % 26)))

/-- `block_digits` of `CouponGenerator._pattern_blocks`. -/
def blockDigits : List Char := ['1', '2', '3', '4', '5', '6', '7', '8', '9', '0']

/-- `block_letters` of `CouponGenerator._pattern_blocks`. -/
def blockLetters : List Char :=
  ['a', 'b', 'c', 'd', 'e', 'f', 'g', 'h', 'i', 'j', 'k', 'l', 'm', 'n', 'o', 'p']

/-- `CouponGenerator._pattern_blocks` (lines 151-169). -/
def patternBlocks : String :=
  String.mk
    (fillPositions
      (fillPositions (List.replicate 32 '0') digitPositions
        (fun i => blockDigits.getD (i % blockDigits.length) '0'))
      letterPositions (fun i => blockLetters.getD (i % blockLetters.length) '0'))

/-- `CouponGenerator._pattern_alternating` (lines 171-186). -/
def patternAlternating : String :=
  String.mk
    (fillPositions
      (fillPositions (List.replicate 32 '0') digitPositions
        (fun i => if i % 2 = 0 then '9' else '1'))
      letterPositions (fun i => if i % 2 = 0 then 'z' else 'a'))

/-- `CouponGenerator._pattern_mirrored` (lines 188-212). -/
def patternMirrored : String :=
  String.mk
    (fillPositions
      (fillPositions (List.replicate 32 '0') digitPositions
        (fun i =>
          if i < digitPositions.length / 2 then Nat.digitChar (i % 10)
          else Nat.digitChar ((digitPositions.length - 1 - i) % 10)))
      letterPositions
      (fun i =>
        if i < letterPositions.length / 2 then Char.ofNat (97 + i % 26)
        else Char.ofNat (97 + (letterPositions.length - 1 - i) % 26)))

/-- `fib_digits` of `CouponGenerator._pattern_fibonacci_like`. -/
def fibDigits : List Nat := [1, 1, 2, 3, 5, 8, 3, 1, 4, 5, 9, 4, 3, 7, 0, 7]

/-- `letter_prog` of `CouponGenerator._pattern_fibonacci_like`. -/
def letterProg : List Nat := [0, 1, 1, 2, 3, 5, 8, 13, 21, 8, 3, 11, 14, 25, 13, 12]

/-- `CouponGenerator._pattern_fibonacci_like` (lines 214-231). -/
def patternFibonacciLike : String :=
  String.mk
    (fillPositions
      (fillPositions (List.replicate 32 '0') digitPositions
        (fun i => Nat.digitChar (fibDigits.getD (i % fibDigits.length) 0)))
      letterPositions
      (fun i => Char.ofNat (97 + (letterProg.getD (i % letterProg.length) 0) % 26)))

/-- The `patterns` list built inside `CouponGenerator._generate_systematic_coupon`
(lines 121-127). -/
def patterns : List String :=
  [patternSequential, patternBlocks, patternAlternating, patternMirrored, patternFibonacciLike]

/-- `CouponGenerator._generate_systematic_coupon` (lines 115-131):
`random.choice(patterns)`, with the random index passed in explicitly. -/
def generateSystematicCoupon (k : Fin patterns.length) : String :=
  patterns.get k

/-- `CouponGenerator._generate_random_coupon` (lines 64-77): the original
per-slot random generator is commented out in the source; the live body just
delegates to `_generate_systematic_coupon`. -/
def generateRandomCoupon (k : Fin patterns.length) : String :=
  generateSystematicCoupon k

/-- The mutable state of a `CouponGenerator` that `get_next_coupon` touches:
the `visited.txt` file (as its list of appended lines), the in-memory
`visited_coupons` set, and the session list `generated_coupons`. -/
structure GenState where
  visitedFile : List String
  visited : Finset String
  generated : List String

/-- `CouponGenerator._save_visited_coupon` (lines 47-54): append one line to
`visited.txt` and insert into the in-memory set. -/
def saveVisitedCoupon (s : GenState) (c : String) : GenState :=
  { s with visitedFile := s.visitedFile ++ [c], visited := insert c s.visited }

/-- `max_attempts` of `CouponGenerator.get_next_coupon` (line 81). -/
def maxAttempts : Nat := 10000

/-- The `while attempts < max_attempts` loop of `get_next_coupon`
(lines 84-95), with `fuel = max_attempts - attempts` making termination
structural.  `draws n` is the index `random.choice` picks on attempt `n`. -/
def getNextCouponAux (draws : Nat → Fin patterns.length) (s : GenState) :
    Nat → Nat → GenState × Option String
  | _, 0 => (s, none)
  | attempts, fuel + 1 =>
    let c := generateRandomCoupon (draws attempts)
    if c ∈ s.visited then getNextCouponAux draws s (attempts + 1) fuel
    else (saveVisitedCoupon { s with generated := s.generated ++ [c] } c, some c)

/-- `CouponGenerator.get_next_coupon` (lines 79-99): returns the fresh coupon,
or `none` after `max_attempts` collisions. -/
def getNextCoupon (s : GenState) (draws : Nat → Fin patterns.length) :
    GenState × Option String :=
  getNextCouponAux draws s 0 maxAttempts

/-- A run of successive `get_next_coupon` calls (each with its own stream of
random draws), collecting the returned candidates in order. -/
def runCalls (s : GenState) : List (Nat → Fin patterns.length) → GenState × List String
  | [] => (s, [])
  | d :: ds =>
    match getNextCoupon s d with
    | (s2, some c) =>
      let q := runCalls s2 ds
      (q.1, c :: q.2)
    | (s2, none) => runCalls s2 ds

/-- Python's `str.strip()` on the ASCII strings this program handles: drop
whitespace characters from both ends. -/
def strip (s : String) : String :=
  String.mk (((s.data.dropWhile Char.isWhitespace).reverse.dropWhile
    Char.isWhitespace).reverse)

/-- `CouponGenerator._load_visited_coupons` (lines 32-45).  The file is
modelled as `none` when `visited.txt` does not exist and as its list of
lines otherwise; `line.strip()` (which also removes the trailing newline)
is `strip`. -/
def loadVisitedCoupons (file : Option (List String)) : Finset String :=
  match file with
  | none => ∅
  | some lines =>
    lines.foldl
      (fun visited line =>
        let coupon := strip line
        if coupon ≠ "" then insert coupon visited else visited)
      ∅

/-- One entry of the `positions` list of
`CouponGenerator._identify_changeable_positions`: the dict
`{'index': i, 'type': 'digit' | 'letter', 'original': char}`, with
`isDigitType = true` standing for `'digit'`. -/
structure PosInfo where
  index : Nat
  isDigitType : Bool
  original : Char

/-- `CouponGenerator._identify_changeable_positions` (lines 20-30), for an
arbitrary template string.  `char.isdigit()` / `char.islower()` are the ASCII
tests on the ASCII templates this program uses. -/
def identifyChangeablePositions (p : String) : List PosInfo :=
  p.data.enum.filterMap
    (fun ic =>
      if ic.2.isDigit || ic.2.isLower then some ⟨ic.1, ic.2.isDigit, ic.2⟩ else none)

/-- `CouponGenerator.calculate_total_combinations` (lines 259-267). -/
def calculateTotalCombinations (p : String) : Nat :=
  (identifyChangeablePositions p).foldl
    (fun total pos => if pos.isDigitType then total * 10 else total * 26) 1

/-! Success-screen detection, from `src/browser_manager.py`. -/

/-- `success_indicators` of `BrowserManager.check_for_success_screen`
(lines 191-196). -/
def successIndicators : List String :=
  ["Use Coupon Code given below", "Flat Rs. 100 Off", "Copy Code",
   "Start shopping on JioMart"]

/-- `needle` occurs at the very start of the character list. -/
def hasPre : List Char → List Char → Bool
  | [], _ => true
  | _ :: _, [] => false
  | a :: as, b :: bs => (a == b) && hasPre as bs

/-- Python's `needle in haystack`: `needle` occurs contiguously somewhere in
`haystack`. -/
def hasSub (needle : List Char) : List Char → Bool
  | [] => hasPre needle []
  | b :: bs => hasPre needle (b :: bs) || hasSub needle bs

/-- Python's `sub in s` on strings. -/
def strContains (haystack needle : String) : Bool :=
  hasSub needle.data haystack.data

/-- Python's `str.lower()` on the ASCII strings this program handles: lower
every character. -/
def lowerStr (s : String) : String :=
  String.mk (s.data.map Char.toLower)

/-- How many of the four indicators occur (after lowering both sides) in the
page source — the `found_indicators` counter of lines 201-204. -/
def countFoundIndicators (pageSource : String) : Nat :=
  (successIndicators.filter
    (fun indicator => strContains (lowerStr pageSource) (lowerStr indicator))).length

/-- `BrowserManager.check_for_success_screen` (lines 184-210) on a captured
page source. -/
def checkForSuccessScreen (pageSource : String) : Bool :=
  decide (countFoundIndicators pageSource ≥ 2)

/-! The probe orchestrator, from `src/main.py`. -/

/-- What the browser interaction inside `test_single_coupon` does for one
candidate: either it completes with a success flag and an optionally
extracted displayed coupon, or some call in the `try` block raises. -/
inductive ProbeOutcome where
  | ok (success : Bool) (displayed : Option String)
  | raises (msg : String)

/-- The `result` dict built by `JioMartCouponTester.test_single_coupon`
(lines 61-66, 99-106). -/
structure ProbeResult where
  coupon : String
  success : Bool
  displayedCoupon : Option String
  screenshot : Option String
  error : Option String

/-- The orchestrator state `test_single_coupon` mutates: the
`tested_coupons` / `successful_coupons` lists, the `total_tested` counter and
the `gotit.txt` success log (as its list of appended lines). -/
structure OrchState where
  testedCoupons : List String
  successfulCoupons : List String
  totalTested : Nat
  gotitLines : List String

/-- The line `JioMartCouponTester._save_successful_coupon` writes
(lines 113-117); the Python truthiness test `if displayed_coupon:` makes both
`None` and the empty string fall to `Not extracted`. -/
def successLine (timestamp testCoupon : String) (displayed : Option String) : String :=
  timestamp ++ " | Test: " ++ testCoupon ++ " | Displayed: " ++
    (match displayed with
     | some p => if p = "" then "Not extracted" else p
     | none => "Not extracted")

/-- `JioMartCouponTester._save_successful_coupon` (lines 108-119): append one
line to `gotit.txt`. -/
def saveSuccessfulCoupon (st : OrchState) (timestamp testCoupon : String)
    (displayed : Option String) : OrchState :=
  { st with gotitLines := st.gotitLines ++ [successLine timestamp testCoupon displayed] }

/-- `JioMartCouponTester.test_single_coupon` (lines 41-106).  `outcome` is the
behaviour of the browser interaction for each candidate and `timestamp` the
clock reading; on `raises`, control jumps to the `except` branch (lines
99-106), which returns a failed result without touching any counter. -/
def testSingleCoupon (outcome : String → ProbeOutcome) (timestamp : String)
    (st : OrchState) (c : String) : OrchState × ProbeResult :=
  match outcome c with
  | .raises msg =>
    (st, { coupon := c, success := false, displayedCoupon := none,
           screenshot := none, error := some msg })
  | .ok isSuccess displayed =>
    let st1 :=
      if isSuccess then
        let stS := saveSuccessfulCoupon st timestamp c displayed
        { stS with successfulCoupons := stS.successfulCoupons ++ [c] }
      else st
    let st2 := { st1 with testedCoupons := st1.testedCoupons ++ [c],
                          totalTested := st1.totalTested + 1 }
    (st2, { coupon := c, success := isSuccess,
            displayedCoupon := if isSuccess then displayed else none,
            screenshot := if isSuccess then some ("success_" ++ c ++ ".png") else none,
            error := none })

/-- Did the browser interaction raise for this candidate? -/
def outcomeRaises : ProbeOutcome → Bool
  | .raises _ => true
  | .ok _ _ => false

/-- Processing one batch: every candidate of the batch is submitted to
`test_single_coupon` and its state updates are aggregated (lines 163-178;
completion order does not affect the counters, so the fold is sequential). -/
def processBatch (outcome : String → ProbeOutcome) (timestamp : String)
    (st : OrchState) (batch : List String) : OrchState :=
  batch.foldl (fun st c => (testSingleCoupon outcome timestamp st c).1) st

/-- The orchestrator's main loop over the batches it drew (lines 152-191),
restricted to the state updates. -/
def runBatches (outcome : String → ProbeOutcome) (timestamp : String)
    (st : OrchState) (batches : List (List String)) : OrchState :=
  batches.foldl (processBatch outcome timestamp) st

/-!
The odometer enumerator.  The repository's source contains no odometer
strategy — only the randomized generator of `coupon_generator.py` — so the
definitions in this section are modelled from the spec (§4.2): variable
slots in template order form a mixed-radix counter, incremented at the
right-most slot first with carries propagating left, becoming permanently
`Exhausted` when a carry leaves the first variable slot.
-/

/-- The digit-slot alphabet `0-9` of the spec's PatternModel. -/
def digitAlphabet : List Char :=
  ['0', '1', '2', '3', '4', '5', '6', '7', '8', '9']

/-- The letter-slot alphabet `a-z` of the spec's PatternModel. -/
def letterAlphabet : List Char :=
  ['a', 'b', 'c', 'd', 'e', 'f', 'g', 'h', 'i', 'j', 'k', 'l', 'm',
   'n', 'o', 'p', 'q', 'r', 's', 't', 'u', 'v', 'w', 'x', 'y', 'z']

/-- Alphabet size of a variable slot: 10 for a digit slot, 26 for a letter
slot. -/
def slotRadix (isDigitKind : Bool) : Nat :=
  if isDigitKind then 10 else 26

/-- The character a variable slot shows when its counter value is `v`. -/
def slotChar (isDigitKind : Bool) (v : Nat) : Char :=
  (if isDigitKind then digitAlphabet else letterAlphabet).getD v '?'

/-- The kinds of the variable slots of a template, in template order
(`true` = digit slot); a slot is variable iff its character is a decimal
digit or a lowercase letter (§4.1). -/
def templateKinds (template : List Char) : List Bool :=
  (template.filter (fun c => c.isDigit || c.isLower)).map Char.isDigit

/-- Modelled from the spec: total combination count of §4.1, the product
over variable slots of the alphabet size. -/
def totalCombinationsOf (template : List Char) : Nat :=
  ((templateKinds template).map slotRadix).prod

/-- Modelled from the spec: `EnumeratorState` for the odometer strategy —
current per-slot values (as indices into the slot alphabets, in template
order) plus the terminal `exhausted` flag. -/
structure OdoState where
  values : List Nat
  exhausted : Bool

/-- Modelled from the spec: one carry-propagating increment, on the
(kind, value) pairs listed right-most slot first.  `none` means the carry
left the first variable slot. -/
def odoIncRev : List (Bool × Nat) → Option (List Nat)
  | [] => none
  | (t, v) :: rest =>
    if v + 1 < slotRadix t then some ((v + 1) :: rest.map Prod.snd)
    else (odoIncRev rest).map (fun vs => 0 :: vs)

/-- The Candidate currently shown by the odometer: the template with each
variable slot replaced by its current alphabet character (fixed slots stay
as they are). -/
def renderCandidate : List Char → List Nat → List Char
  | [], _ => []
  | c :: cs, [] => c :: renderCandidate cs []
  | c :: cs, v :: vs =>
    if c.isDigit || c.isLower then slotChar c.isDigit v :: renderCandidate cs vs
    else c :: renderCandidate cs (v :: vs)

/-- Modelled from the spec: the odometer's initial state, every variable
slot at the first character of its alphabet. -/
def odoInit (template : List Char) : OdoState :=
  ⟨(templateKinds template).map (fun _ => 0), false⟩

/-- Modelled from the spec: `next()` of the odometer strategy (§4.2) —
emit the current state, then increment right-most first; a carry past the
first variable slot makes the enumerator permanently exhausted, and an
exhausted enumerator returns `Exhausted` (`none`) forever. -/
def odoNext (template : List Char) (st : OdoState) : OdoState × Option (List Char) :=
  if st.exhausted then (st, none)
  else
    let emitted := renderCandidate template st.values
    match odoIncRev (((templateKinds template).zip st.values).reverse) with
    | some newRev => ({ st with values := newRev.reverse }, some emitted)
    | none => (⟨st.values, true⟩, some emitted)

/-- `n` successive calls of the odometer's `next()`, collecting the emitted
candidates in order. -/
def odoRun (template : List Char) (st : OdoState) : Nat → OdoState × List (List Char)
  | 0 => (st, [])
  | n + 1 =>
    let p := odoNext template st
    let q := odoRun template p.1 n
    (q.1, match p.2 with
          | some e => e :: q.2
          | none => q.2)

/-- Every (kind, value) pair of the list has its value inside the slot's
alphabet. -/
def pairValid (l : List (Bool × Nat)) : Prop :=
  ∀ p ∈ l, p.2 < slotRadix p.1

/-- The mixed-radix numeric value of a (kind, value) list whose head is the
least-significant (right-most) slot. -/
def valRev : List (Bool × Nat) → Nat
  | [] => 0
  | (t, v) :: rest => v + slotRadix t * valRev rest

/-- The product of the radices of a (kind, value) list. -/
def radProd (l : List (Bool × Nat)) : Nat :=
  (l.map (fun p => slotRadix p.1)).prod

/-- The numeric value of an odometer state: its per-slot values read as a
mixed-radix number, least-significant slot last in template order. -/
def stVal (template : List Char) (st : OdoState) : Nat :=
  valRev (((templateKinds template).zip st.values).reverse)

/-- The spec's combination count (§4.1), written exactly as the spec words
it: the product, over the slots whose character is a decimal digit or a
lowercase letter, of the alphabet size (10 for digit slots, 26 for letter
slots). -/
def specTotalCombinations (p : String) : Nat :=
  ((p.data.filter (fun c => c.isDigit || c.isLower)).map
    (fun c => if c.isDigit then (10 : Nat) else 26)).prod

/-! ### Helper lemmas -/

theorem foldl_mul_changeable (l : List PosInfo) :
    ∀ a : Nat,
      l.foldl (fun total pos => if pos.isDigitType then total * 10 else total * 26) a =
        a * (l.map (fun pos => if pos.isDigitType then (10 : Nat) else 26)).prod := by
  induction l with
  | nil => intro a; simp
  | cons p l ih =>
    intro a
    by_cases h : p.isDigitType = true
    · simp [h, ih, Nat.mul_assoc]
    · simp [h, ih, Nat.mul_assoc]

theorem changeable_mults (l : List Char) :
    ∀ k : Nat,
      ((l.enumFrom k).filterMap
          (fun ic =>
            if ic.2.isDigit || ic.2.isLower then
              some (⟨ic.1, ic.2.isDigit, ic.2⟩ : PosInfo)
            else none)).map
          (fun pos => if pos.isDigitType then (10 : Nat) else 26) =
        (l.filter (fun c => c.isDigit || c.isLower)).map
          (fun c => if c.isDigit then (10 : Nat) else 26) := by
  induction l with
  | nil => intro k; simp
  | cons c cs ih =>
    intro k
    rw [List.enumFrom, List.filterMap_cons, List.filter_cons]
    simp only []
    by_cases h : (c.isDigit || c.isLower) = true
    · rw [if_pos h, if_pos h]
      simp only [List.map_cons]
      rw [ih]
    · rw [if_neg h, if_neg h]
      rw [ih]

theorem mem_loadFold (lines : List String) :
    ∀ (acc : Finset String) (s : String),
      (s ∈ lines.foldl
          (fun visited line =>
            let coupon := strip line
            if coupon ≠ "" then insert coupon visited else visited)
          acc) ↔
        s ∈ acc ∨ (s ≠ "" ∧ ∃ l ∈ lines, strip l = s) := by
  induction lines with
  | nil => intro acc s; simp
  | cons l ls ih =>
    intro acc s
    by_cases h : strip l = ""
    · rw [List.foldl_cons]
      simp only [h, ne_eq, not_true_eq_false, if_neg, ite_false, not_false_eq_true]
      rw [ih]
      constructor
      · rintro (hs | ⟨hne, l2, hl2, ht⟩)
        · exact Or.inl hs
        · exact Or.inr ⟨hne, l2, List.mem_cons_of_mem _ hl2, ht⟩
      · rintro (hs | ⟨hne, l2, hl2, ht⟩)
        · exact Or.inl hs
        · rcases List.mem_cons.mp hl2 with rfl | hl2
          · exact absurd (ht ▸ h) hne
          · exact Or.inr ⟨hne, l2, hl2, ht⟩
    · rw [List.foldl_cons]
      simp only [ne_eq, h, not_false_eq_true, if_pos, ite_true]
      rw [ih]
      constructor
      · rintro (hs | ⟨hne, l2, hl2, ht⟩)
        · rcases Finset.mem_insert.mp hs with rfl | hs
          · exact Or.inr ⟨h, l, List.mem_cons_self _ _, rfl⟩
          · exact Or.inl hs
        · exact Or.inr ⟨hne, l2, List.mem_cons_of_mem _ hl2, ht⟩
      · rintro (hs | ⟨hne, l2, hl2, ht⟩)
        · exact Or.inl (Finset.mem_insert_of_mem hs)
        · rcases List.mem_cons.mp hl2 with rfl | hl2
          · exact Or.inl (ht ▸ Finset.mem_insert_self _ _)
          · exact Or.inr ⟨hne, l2, hl2, ht⟩

theorem hasPre_iff (n : List Char) :
    ∀ h : List Char, hasPre n h = true ↔ ∃ t, h = n ++ t := by
  induction n with
  | nil =>
    intro h
    simp [hasPre]
  | cons a as ih =>
    intro h
    cases h with
    | nil => simp [hasPre]
    | cons b bs =>
      rw [hasPre]
      rw [Bool.and_eq_true, beq_iff_eq, ih bs]
      constructor
      · rintro ⟨rfl, t, rfl⟩
        exact ⟨t, rfl⟩
      · rintro ⟨t, ht⟩
        rcases List.cons.injEq .. ▸ ht with ⟨rfl, rfl⟩
        exact ⟨rfl, t, rfl⟩

theorem hasSub_iff (n : List Char) :
    ∀ h : List Char, hasSub n h = true ↔ ∃ pre post, h = pre ++ n ++ post := by
  intro h
  induction h with
  | nil =>
    rw [hasSub, hasPre_iff]
    constructor
    · rintro ⟨t, ht⟩
      exact ⟨[], t, ht⟩
    · rintro ⟨pre, post, hp⟩
      rcases List.append_eq_nil.mp hp.symm with ⟨h1, h2⟩
      rcases List.append_eq_nil.mp h1 with ⟨h3, h4⟩
      exact ⟨[], by simp [h4]⟩
  | cons b bs ih =>
    rw [hasSub, Bool.or_eq_true, hasPre_iff, ih]
    constructor
    · rintro (⟨t, ht⟩ | ⟨pre, post, hp⟩)
      · exact ⟨[], t, by simp [ht]⟩
      · exact ⟨b :: pre, post, by simp [hp]⟩
    · rintro ⟨pre, post, hp⟩
      cases pre with
      | nil => exact Or.inl ⟨post, by simpa using hp⟩
      | cons p ps =>
        rcases List.cons.injEq .. ▸ hp with ⟨rfl, h2⟩
        exact Or.inr ⟨ps, post, h2⟩

/-! ### C8 -/

/-- C8: for every template string, `calculate_total_combinations` returns
exactly the product over variable slots of the alphabet size (10 per digit
slot, 26 per letter slot), a slot being variable iff its character is a
decimal digit or a lowercase letter; the result is a pure function of the
template. -/
theorem calculateTotalCombinations_matches_spec :
    ∀ p : String, calculateTotalCombinations p = specTotalCombinations p := by
  intro p
  rw [calculateTotalCombinations, specTotalCombinations, foldl_mul_changeable, Nat.one_mul,
    identifyChangeablePositions]
  exact congrArg List.prod (changeable_mults p.data 0)

/-! ### C9 -/

/-- C9: loading the visited set from a missing storage file yields the empty
set (not an error), and loading from an existing file yields exactly the
non-empty stripped lines of the file. -/
theorem loadVisitedCoupons_spec :
    loadVisitedCoupons none = ∅ ∧
      ∀ (lines : List String) (s : String),
        s ∈ loadVisitedCoupons (some lines) ↔ s ≠ "" ∧ ∃ l ∈ lines, strip l = s := by
  refine ⟨rfl, fun lines s => ?_⟩
  rw [loadVisitedCoupons]
  simpa using mem_loadFold lines ∅ s

/-! ### C6 -/

/-- C6: success detection is a pure function of the page content, true iff at
least 2 of the 4 fixed indicators occur (case-insensitively, i.e. after
lowering both sides) as contiguous substrings of the page source; content
with exactly 1 indicator yields `false`, content with 2 or more yields
`true`.  The second conjunct pins the meaning of the occurrence test used by
the counter: it is exactly contiguous-substring occurrence. -/
theorem checkForSuccessScreen_spec :
    ∀ page : String,
      (checkForSuccessScreen page = true ↔ 2 ≤ countFoundIndicators page) ∧
      (∀ needle haystack : String,
        strContains haystack needle = true ↔
          ∃ pre post, haystack.data = pre ++ needle.data ++ post) ∧
      (countFoundIndicators page = 1 → checkForSuccessScreen page = false) ∧
      (2 ≤ countFoundIndicators page → checkForSuccessScreen page = true) := by
  intro page
  refine ⟨decide_eq_true_iff, fun needle haystack => hasSub_iff _ _, ?_, ?_⟩
  · intro h
    rw [checkForSuccessScreen, decide_eq_false_iff_not]
    omega
  · intro h
    exact decide_eq_true h

/-- Concrete instances for C6: a page containing two indicators is detected
as a success screen, a page containing exactly one is not. -/
theorem checkForSuccessScreen_spec_witness :
    checkForSuccessScreen "... Use COUPON code given below ... COPY CODE ..." = true ∧
      checkForSuccessScreen "... Copy Code only ..." = false :=
  ⟨(checkForSuccessScreen_spec "... Use COUPON code given below ... COPY CODE ...").2.2.2
      (by decide),
   (checkForSuccessScreen_spec "... Copy Code only ...").2.2.1 (by decide)⟩

/-! ### The generator loop -/

theorem patterns_facts :
    ∀ p ∈ patterns, p.length = 32 ∧ strip p = p ∧ p ≠ "" := by decide

theorem generateRandomCoupon_mem (k : Fin patterns.length) :
    generateRandomCoupon k ∈ patterns :=
  List.get_mem patterns k.1 k.2

theorem getNextCouponAux_some (draws : Nat → Fin patterns.length) :
    ∀ (fuel attempts : Nat) (s s2 : GenState) (c : String),
      getNextCouponAux draws s attempts fuel = (s2, some c) →
        c ∉ s.visited ∧ (∃ k, c = generateRandomCoupon (draws k)) ∧
          s2 = saveVisitedCoupon { s with generated := s.generated ++ [c] } c := by
  intro fuel
  induction fuel with
  | zero =>
    intro attempts s s2 c h
    rw [getNextCouponAux] at h
    exact absurd (congrArg Prod.snd h) (by simp)
  | succ fuel ih =>
    intro attempts s s2 c h
    rw [getNextCouponAux] at h
    by_cases hv : generateRandomCoupon (draws attempts) ∈ s.visited
    · rw [if_pos hv] at h
      exact ih _ _ _ _ h
    · rw [if_neg hv] at h
      have h1 : saveVisitedCoupon
          { s with generated := s.generated ++ [generateRandomCoupon (draws attempts)] }
          (generateRandomCoupon (draws attempts)) = s2 := congrArg Prod.fst h
      have h2 : some (generateRandomCoupon (draws attempts)) = some c := congrArg Prod.snd h
      have h3 : generateRandomCoupon (draws attempts) = c := Option.some.inj h2
      subst h3
      exact ⟨hv, ⟨attempts, rfl⟩, h1.symm⟩

theorem getNextCouponAux_noneState (draws : Nat → Fin patterns.length) :
    ∀ (fuel attempts : Nat) (s s2 : GenState),
      getNextCouponAux draws s attempts fuel = (s2, none) → s2 = s := by
  intro fuel
  induction fuel with
  | zero =>
    intro attempts s s2 h
    rw [getNextCouponAux] at h
    exact (congrArg Prod.fst h).symm
  | succ fuel ih =>
    intro attempts s s2 h
    rw [getNextCouponAux] at h
    by_cases hv : generateRandomCoupon (draws attempts) ∈ s.visited
    · rw [if_pos hv] at h
      exact ih _ _ _ h
    · rw [if_neg hv] at h
      exact absurd (congrArg Prod.snd h) (by simp)

theorem getNextCouponAux_none (draws : Nat → Fin patterns.length) :
    ∀ (fuel attempts : Nat) (s : GenState),
      (∀ i, attempts ≤ i → i < attempts + fuel → generateRandomCoupon (draws i) ∈ s.visited) →
      getNextCouponAux draws s attempts fuel = (s, none) := by
  intro fuel
  induction fuel with
  | zero => intro attempts s _; rw [getNextCouponAux]
  | succ fuel ih =>
    intro attempts s h
    rw [getNextCouponAux]
    rw [if_pos (h attempts le_rfl (by omega))]
    exact ih (attempts + 1) s (fun i h1 h2 => h i (by omega) (by omega))

theorem getNextCouponAux_congr (draws draws2 : Nat → Fin patterns.length) :
    ∀ (fuel attempts : Nat) (s : GenState),
      (∀ i, attempts ≤ i → i < attempts + fuel → draws i = draws2 i) →
      getNextCouponAux draws s attempts fuel = getNextCouponAux draws2 s attempts fuel := by
  intro fuel
  induction fuel with
  | zero => intro attempts s _; rw [getNextCouponAux, getNextCouponAux]
  | succ fuel ih =>
    intro attempts s h
    rw [getNextCouponAux, getNextCouponAux]
    rw [h attempts le_rfl (by omega)]
    by_cases hv : generateRandomCoupon (draws2 attempts) ∈ s.visited
    · rw [if_pos hv, if_pos hv]
      exact ih (attempts + 1) s (fun i h1 h2 => h i (by omega) (by omega))
    · rw [if_neg hv, if_neg hv]

/-! ### C2 -/

/-- C2: every non-`none` value `get_next_coupon` returns is one of the five
fixed 32-character strings produced by the deterministic pattern helpers
(there are exactly five, pairwise distinct), so at most 5 distinct
candidates can ever be produced; and once all five are in the visited set,
every call returns `none` with the state unchanged. -/
theorem getNextCoupon_five_fixed :
    (∀ (s : GenState) (draws : Nat → Fin patterns.length) (s2 : GenState) (c : String),
        getNextCoupon s draws = (s2, some c) → c ∈ patterns ∧ c.length = 32) ∧
      patterns.length = 5 ∧ patterns.Nodup ∧
      (∀ (s : GenState) (draws : Nat → Fin patterns.length),
        (∀ p ∈ patterns, p ∈ s.visited) → getNextCoupon s draws = (s, none)) := by
  refine ⟨?_, rfl, by decide, ?_⟩
  · intro s draws s2 c h
    obtain ⟨-, ⟨k, rfl⟩, -⟩ := getNextCouponAux_some draws maxAttempts 0 s s2 c h
    exact ⟨generateRandomCoupon_mem _, (patterns_facts _ (generateRandomCoupon_mem _)).1⟩
  · intro s draws h
    exact getNextCouponAux_none draws maxAttempts 0 s
      (fun i _ _ => h _ (generateRandomCoupon_mem _))

/-- Concrete instances for C2: on a fresh state the first call returns the
sequential pattern (a member of the five), and once all five patterns are
visited a call returns `none`. -/
theorem getNextCoupon_five_fixed_witness :
    patternSequential ∈ patterns ∧ patternSequential.length = 32 ∧
      getNextCoupon
          ⟨[], {patternSequential, patternBlocks, patternAlternating, patternMirrored,
            patternFibonacciLike}, []⟩ (fun _ => ⟨0, by decide⟩) =
        (⟨[], {patternSequential, patternBlocks, patternAlternating, patternMirrored,
          patternFibonacciLike}, []⟩, none) := by
  refine ⟨?_, ?_, ?_⟩
  · exact (getNextCoupon_five_fixed.1 ⟨[], ∅, []⟩ (fun _ => ⟨0, by decide⟩)
      (saveVisitedCoupon ⟨[], ∅, [patternSequential]⟩ patternSequential)
      patternSequential rfl).1
  · exact (getNextCoupon_five_fixed.1 ⟨[], ∅, []⟩ (fun _ => ⟨0, by decide⟩)
      (saveVisitedCoupon ⟨[], ∅, [patternSequential]⟩ patternSequential)
      patternSequential rfl).2
  · exact getNextCoupon_five_fixed.2.2.2 _ _ (by decide)

/-! ### C4 -/

/-- C4: the retry loop of `get_next_coupon` performs at most 10,000 attempts
— the result never depends on draws beyond index 9,999 — and if every
attempt collides with the visited set the call terminates and returns the
exhaustion signal `none` instead of looping forever. -/
theorem getNextCoupon_bounded_retries :
    (∀ (s : GenState) (draws : Nat → Fin patterns.length),
        (∀ i, i < maxAttempts → generateRandomCoupon (draws i) ∈ s.visited) →
        getNextCoupon s draws = (s, none)) ∧
      (∀ (s : GenState) (draws draws2 : Nat → Fin patterns.length),
        (∀ i, i < maxAttempts → draws i = draws2 i) →
        getNextCoupon s draws = getNextCoupon s draws2) := by
  constructor
  · intro s draws h
    exact getNextCouponAux_none draws maxAttempts 0 s (fun i _ h2 => h i (by omega))
  · intro s draws draws2 h
    exact getNextCouponAux_congr draws draws2 maxAttempts 0 s (fun i _ h2 => h i (by omega))

/-- Concrete instance for C4: with the single sequential pattern already
visited and every draw picking it, the call returns `none` with the state
unchanged. -/
theorem getNextCoupon_bounded_retries_witness :
    getNextCoupon ⟨[], {patternSequential}, []⟩ (fun _ => ⟨0, by decide⟩) =
      (⟨[], {patternSequential}, []⟩, none) :=
  getNextCoupon_bounded_retries.1 _ _ (fun i _ => by decide)

/-! ### C5 -/

theorem runCalls_props :
    ∀ (ds : List (Nat → Fin patterns.length)) (s : GenState),
      (∀ x, x ∈ s.visited → x ∈ (runCalls s ds).1.visited) ∧
        (∀ x, x ∈ s.visitedFile → x ∈ (runCalls s ds).1.visitedFile) ∧
        (∀ c ∈ (runCalls s ds).2,
          c ∉ s.visited ∧ c ∈ (runCalls s ds).1.visited ∧
            c ∈ (runCalls s ds).1.visitedFile ∧ c ∈ patterns) ∧
        (runCalls s ds).2.Nodup := by
  intro ds
  induction ds with
  | nil =>
    intro s
    exact ⟨fun x hx => hx, fun x hx => hx, fun c hc => absurd hc (List.not_mem_nil c),
      List.nodup_nil⟩
  | cons d ds ih =>
    intro s
    rcases hg : getNextCoupon s d with ⟨s2, oc⟩
    cases oc with
    | none =>
      have hs : s2 = s := getNextCouponAux_noneState d maxAttempts 0 s s2 hg
      rw [hs] at hg
      have hr : runCalls s (d :: ds) = runCalls s ds := by
        rw [runCalls, hg]
      rw [hr]
      exact ih s
    | some c =>
      obtain ⟨hnv, ⟨k, hk⟩, hs2⟩ := getNextCouponAux_some d maxAttempts 0 s s2 c hg
      have hr : runCalls s (d :: ds) = ((runCalls s2 ds).1, c :: (runCalls s2 ds).2) := by
        rw [runCalls, hg]
      obtain ⟨m1, m2, m3, m4⟩ := ih s2
      have hvis : ∀ x, x ∈ s.visited → x ∈ s2.visited := by
        intro x hx
        rw [hs2]
        exact Finset.mem_insert_of_mem hx
      have hfile : ∀ x, x ∈ s.visitedFile → x ∈ s2.visitedFile := by
        intro x hx
        rw [hs2]
        exact List.mem_append_left _ hx
      have hcv : c ∈ s2.visited := by
        rw [hs2]
        exact Finset.mem_insert_self _ _
      have hcf : c ∈ s2.visitedFile := by
        rw [hs2]
        exact List.mem_append_right _ (List.mem_singleton.mpr rfl)
      rw [hr]
      refine ⟨fun x hx => m1 x (hvis x hx), fun x hx => m2 x (hfile x hx), ?_, ?_⟩
      · intro c2 hc2
        rcases List.mem_cons.mp hc2 with rfl | hc2
        · exact ⟨hnv, m1 _ hcv, m2 _ hcf, hk ▸ generateRandomCoupon_mem _⟩
        · obtain ⟨p1, p2, p3, p4⟩ := m3 c2 hc2
          exact ⟨fun hx => p1 (hvis _ hx), p2, p3, p4⟩
      · refine List.nodup_cons.mpr ⟨?_, m4⟩
        intro hmem
        exact (m3 c hmem).1 hcv

/-- C5: a candidate returned by `get_next_coupon` was not visited before the
call and is in the in-memory set and in the `visited.txt` lines of the
returned state (both grown monotonically), so across any run no candidate is
ever returned twice (the collected returns are duplicate-free), and a
visited set reloaded from the file after a restart contains every candidate
previously returned. -/
theorem getNextCoupon_no_duplicates :
    (∀ (s : GenState) (draws : Nat → Fin patterns.length) (s2 : GenState) (c : String),
        getNextCoupon s draws = (s2, some c) →
          c ∉ s.visited ∧ c ∈ s2.visited ∧ c ∈ s2.visitedFile ∧
            (∀ x, x ∈ s.visited → x ∈ s2.visited) ∧
            (∀ x, x ∈ s.visitedFile → x ∈ s2.visitedFile)) ∧
      (∀ (s : GenState) (dss : List (Nat → Fin patterns.length)),
        (runCalls s dss).2.Nodup) ∧
      (∀ (s : GenState) (dss : List (Nat → Fin patterns.length)) (c : String),
        c ∈ (runCalls s dss).2 →
          c ∈ loadVisitedCoupons (some (runCalls s dss).1.visitedFile)) := by
  refine ⟨?_, ?_, ?_⟩
  · intro s draws s2 c h
    obtain ⟨hnv, -, hs2⟩ := getNextCouponAux_some draws maxAttempts 0 s s2 c h
    subst hs2
    exact ⟨hnv, Finset.mem_insert_self _ _,
      List.mem_append_right _ (List.mem_singleton.mpr rfl),
      fun x hx => Finset.mem_insert_of_mem hx,
      fun x hx => List.mem_append_left _ hx⟩
  · intro s dss
    exact (runCalls_props dss s).2.2.2
  · intro s dss c hc
    obtain ⟨-, -, hcf, hcp⟩ := (runCalls_props dss s).2.2.1 c hc
    obtain ⟨-, hstrip, hne⟩ := patterns_facts c hcp
    rw [loadVisitedCoupons]
    rw [mem_loadFold]
    exact Or.inr ⟨hne, c, hcf, hstrip⟩

/-- Concrete instance for C5: a one-call run from the fresh state returns the
sequential pattern, which was unvisited before the call and is recovered by
reloading the visited file of the final state. -/
theorem getNextCoupon_no_duplicates_witness :
    patternSequential ∉ (GenState.mk [] ∅ []).visited ∧
      patternSequential ∈
        loadVisitedCoupons
          (some (runCalls ⟨[], ∅, []⟩ [fun _ => ⟨0, by decide⟩]).1.visitedFile) :=
  ⟨(getNextCoupon_no_duplicates.1 ⟨[], ∅, []⟩ (fun _ => ⟨0, by decide⟩)
      (saveVisitedCoupon ⟨[], ∅, [patternSequential]⟩ patternSequential)
      patternSequential rfl).1,
   getNextCoupon_no_duplicates.2.2 ⟨[], ∅, []⟩ [fun _ => ⟨0, by decide⟩]
      patternSequential (by decide)⟩

/-! ### C1 -/

/-- C1 is refuted: the first candidate drawn on a fresh state is the
sequential pattern, whose character at index 6 is the digit `'4'`, while the
template's character at index 6 is the lowercase letter `'b'` — so that
variable slot's alphabet is `a-z`, and the candidate's character there is
not drawn from it (a fortiori not uniformly). -/
theorem c1_counterexample :
    (getNextCoupon ⟨[], ∅, []⟩ (fun _ => ⟨0, by decide⟩)).2 = some patternSequential ∧
      basePattern.data.getD 6 ' ' = 'b' ∧ 'b'.isLower = true ∧
      patternSequential.data.getD 6 ' ' = '4' ∧ '4'.isLower = false ∧
      '4'.isDigit = true := by
  exact ⟨rfl, rfl, rfl, rfl, rfl, rfl⟩

/-- C1 (amended): every candidate returned by `get_next_coupon` has the
template's length 32 and holds a digit at each of the 16 hard-coded digit
positions and a lowercase letter at each of the 16 hard-coded letter
positions; but those positions do not all coincide with the template's own
digit/letter slots, and the candidate comes from the five fixed
deterministic patterns, not from per-slot uniform sampling. -/
theorem c1_amended :
    ∀ (s : GenState) (draws : Nat → Fin patterns.length) (s2 : GenState) (c : String),
      getNextCoupon s draws = (s2, some c) →
        c.length = 32 ∧ c ∈ patterns ∧
          (∀ i ∈ digitPositions, (c.data.getD i ' ').isDigit = true) ∧
          (∀ i ∈ letterPositions, (c.data.getD i ' ').isLower = true) := by
  intro s draws s2 c h
  obtain ⟨-, ⟨k, rfl⟩, -⟩ := getNextCouponAux_some draws maxAttempts 0 s s2 c h
  have hall : ∀ p ∈ patterns,
      p.length = 32 ∧
        (∀ i ∈ digitPositions, (p.data.getD i ' ').isDigit = true) ∧
        (∀ i ∈ letterPositions, (p.data.getD i ' ').isLower = true) := by decide
  obtain ⟨h1, h2, h3⟩ := hall _ (generateRandomCoupon_mem (draws k))
  exact ⟨h1, generateRandomCoupon_mem _, h2, h3⟩

/-- Concrete instance for the amended C1, at the same input as the
counterexample. -/
theorem c1_amended_witness :
    patternSequential.length = 32 ∧ patternSequential ∈ patterns ∧
      (∀ i ∈ digitPositions, (patternSequential.data.getD i ' ').isDigit = true) ∧
      (∀ i ∈ letterPositions, (patternSequential.data.getD i ' ').isLower = true) :=
  c1_amended ⟨[], ∅, []⟩ (fun _ => ⟨0, by decide⟩)
    (saveVisitedCoupon ⟨[], ∅, [patternSequential]⟩ patternSequential)
    patternSequential rfl

/-! ### C3 -/

theorem testSingleCoupon_totalTested (outcome : String → ProbeOutcome) (ts : String)
    (st : OrchState) (c : String) :
    (testSingleCoupon outcome ts st c).1.totalTested =
      st.totalTested + (if outcomeRaises (outcome c) then 0 else 1) := by
  rcases ho : outcome c with ⟨su, di⟩ | msg
  · cases su <;> simp [testSingleCoupon, ho, outcomeRaises, saveSuccessfulCoupon]
  · simp [testSingleCoupon, ho, outcomeRaises]

theorem processBatch_totalTested (outcome : String → ProbeOutcome) (ts : String) :
    ∀ (batch : List String) (st : OrchState),
      (processBatch outcome ts st batch).totalTested =
        st.totalTested + batch.countP (fun c => !(outcomeRaises (outcome c))) := by
  intro batch
  induction batch with
  | nil => intro st; simp [processBatch]
  | cons c cs ih =>
    intro st
    have hstep : processBatch outcome ts st (c :: cs) =
        processBatch outcome ts (testSingleCoupon outcome ts st c).1 cs := by
      rw [processBatch, processBatch, List.foldl_cons]
    rw [hstep, ih, testSingleCoupon_totalTested, List.countP_cons]
    cases ho : outcomeRaises (outcome c)
    · simp [ho]
      all_goals omega
    · simp [ho]

/-- C3 is refuted: with a probe whose browser interaction raises, the single
candidate of the single batch yields a failed `ProbeResult`, but
`total_tested` stays 0 while the sum of batch sizes is 1 — the `except`
branch of `test_single_coupon` returns before the counter update, so a
raising probe is not counted as tested. -/
theorem c3_counterexample :
    (runBatches (fun _ => ProbeOutcome.raises "boom") "ts" ⟨[], [], 0, []⟩
        [["X"]]).totalTested = 0 ∧
      ([["X"]].map List.length).sum = 1 ∧
      (runBatches (fun _ => ProbeOutcome.raises "boom") "ts" ⟨[], [], 0, []⟩
          [["X"]]).totalTested ≠ ([["X"]].map List.length).sum := by
  exact ⟨rfl, rfl, by decide⟩

/-- C3 (amended): a probe whose browser interaction raises never aborts the
orchestrator — `test_single_coupon` returns a failed `ProbeResult` carrying
the error, with the orchestrator state unchanged — but such a candidate is
not counted: at termination `total_tested` equals the number of drawn
candidates whose probe completed without raising, which is at most (and not
always equal to) the sum of the batch sizes. -/
theorem orchestrator_counts_completed_probes :
    (∀ (outcome : String → ProbeOutcome) (ts : String) (st : OrchState) (c msg : String),
        outcome c = ProbeOutcome.raises msg →
          testSingleCoupon outcome ts st c =
            (st, ⟨c, false, none, none, some msg⟩)) ∧
      (∀ (outcome : String → ProbeOutcome) (ts : String) (st : OrchState)
          (batches : List (List String)),
        (runBatches outcome ts st batches).totalTested =
          st.totalTested + batches.flatten.countP (fun c => !(outcomeRaises (outcome c)))) ∧
      (∀ (outcome : String → ProbeOutcome) (ts : String) (st : OrchState)
          (batches : List (List String)),
        (runBatches outcome ts st batches).totalTested ≤
          st.totalTested + (batches.map List.length).sum) := by
  have hrun : ∀ (outcome : String → ProbeOutcome) (ts : String)
      (batches : List (List String)) (st : OrchState),
      (runBatches outcome ts st batches).totalTested =
        st.totalTested + batches.flatten.countP (fun c => !(outcomeRaises (outcome c))) := by
    intro outcome ts batches
    induction batches with
    | nil => intro st; simp [runBatches]
    | cons b bs ih =>
      intro st
      have hstep : runBatches outcome ts st (b :: bs) =
          runBatches outcome ts (processBatch outcome ts st b) bs := by
        rw [runBatches, runBatches, List.foldl_cons]
      rw [hstep, ih, processBatch_totalTested, List.flatten_cons, List.countP_append]
      omega
  refine ⟨?_, ?_, ?_⟩
  · intro outcome ts st c msg h
    simp [testSingleCoupon, h]
  · intro outcome ts st batches
    exact hrun outcome ts batches st
  · intro outcome ts st batches
    rw [hrun outcome ts batches st]
    have h1 : batches.flatten.countP (fun c => !(outcomeRaises (outcome c))) ≤
        batches.flatten.length := List.countP_le_length _
    have h2 : batches.flatten.length = (batches.map List.length).sum := by
      rw [List.length_flatten]
    omega

/-- Concrete instance for the amended C3: a raising probe yields a failed
result with the state unchanged, and a run of one raising and one completing
probe counts exactly the completing one. -/
theorem orchestrator_counts_completed_probes_witness :
    testSingleCoupon (fun _ => ProbeOutcome.raises "boom") "ts" ⟨[], [], 0, []⟩ "X" =
        (⟨[], [], 0, []⟩, ⟨"X", false, none, none, some "boom"⟩) ∧
      (runBatches (fun c => if c = "X" then ProbeOutcome.raises "boom"
          else ProbeOutcome.ok false none) "ts" ⟨[], [], 0, []⟩ [["X", "Y"]]).totalTested =
        0 + [["X", "Y"]].flatten.countP
          (fun c => !(outcomeRaises (if c = "X" then ProbeOutcome.raises "boom"
            else ProbeOutcome.ok false none))) :=
  ⟨orchestrator_counts_completed_probes.1 _ "ts" ⟨[], [], 0, []⟩ "X" "boom" rfl,
   orchestrator_counts_completed_probes.2.1 _ "ts" ⟨[], [], 0, []⟩ [["X", "Y"]]⟩

/-! ### C7 -/

/-- C7: a successful probe appends exactly one line of the form
`"<timestamp> | Test: <candidate> | Displayed: <payload>"` (with the literal
`Not extracted` when no payload was extracted) to the success log, and does
so on the state returned before the `ProbeResult` is reported: whenever the
result says success, the returned state already carries the appended line;
no outcome ever removes lines from the log. -/
theorem successLog_spec :
    (∀ (outcome : String → ProbeOutcome) (ts : String) (st : OrchState) (c : String)
        (d : Option String),
        outcome c = ProbeOutcome.ok true d →
          (testSingleCoupon outcome ts st c).1.gotitLines =
              st.gotitLines ++ [successLine ts c d] ∧
            (testSingleCoupon outcome ts st c).2.success = true) ∧
      (∀ (outcome : String → ProbeOutcome) (ts : String) (st : OrchState) (c : String),
        (testSingleCoupon outcome ts st c).2.success = true →
          ∃ d, (testSingleCoupon outcome ts st c).1.gotitLines =
            st.gotitLines ++ [successLine ts c d]) ∧
      (∀ (outcome : String → ProbeOutcome) (ts : String) (st : OrchState) (c : String),
        ∃ tail, (testSingleCoupon outcome ts st c).1.gotitLines = st.gotitLines ++ tail) ∧
      (∀ ts c, successLine ts c none =
        ts ++ " | Test: " ++ c ++ " | Displayed: Not extracted") ∧
      (∀ ts c p, p ≠ "" → successLine ts c (some p) =
        ts ++ " | Test: " ++ c ++ " | Displayed: " ++ p) := by
  refine ⟨?_, ?_, ?_, ?_, ?_⟩
  · intro outcome ts st c d h
    constructor
    · simp [testSingleCoupon, h, saveSuccessfulCoupon]
    · simp [testSingleCoupon, h]
  · intro outcome ts st c h
    rcases ho : outcome c with ⟨su, di⟩ | msg
    · cases su
      · rw [testSingleCoupon, ho] at h
        simp at h
      · exact ⟨di, by simp [testSingleCoupon, ho, saveSuccessfulCoupon]⟩
    · rw [testSingleCoupon, ho] at h
      simp at h
  · intro outcome ts st c
    rcases ho : outcome c with ⟨su, di⟩ | msg
    · cases su
      · exact ⟨[], by simp [testSingleCoupon, ho]⟩
      · exact ⟨[successLine ts c di], by simp [testSingleCoupon, ho, saveSuccessfulCoupon]⟩
    · exact ⟨[], by simp [testSingleCoupon, ho]⟩
  · intro ts c
    simp only [successLine, String.append_assoc]
    rfl
  · intro ts c p hp
    rw [successLine, if_neg hp]

/-! ### C10: the odometer enumerator -/

theorem slotRadix_pos (t : Bool) : 0 < slotRadix t := by
  cases t <;> decide

theorem pairValid_reverse (l : List (Bool × Nat)) :
    pairValid l.reverse ↔ pairValid l := by
  simp only [pairValid, List.mem_reverse]

theorem radProd_reverse (l : List (Bool × Nat)) : radProd l.reverse = radProd l := by
  rw [radProd, radProd, List.map_reverse, List.prod_reverse]

theorem valRev_lt (l : List (Bool × Nat)) (h : pairValid l) : valRev l < radProd l := by
  induction l with
  | nil => rw [valRev, radProd]; decide
  | cons p rest ih =>
    obtain ⟨t, v⟩ := p
    have hv : v < slotRadix t := h _ (List.mem_cons_self _ _)
    have hrest : pairValid rest := fun q hq => h q (List.mem_cons_of_mem _ hq)
    have h2 : valRev rest + 1 ≤ radProd rest := ih hrest
    rw [valRev, radProd, List.map_cons, List.prod_cons]
    have h3 : v + slotRadix t * valRev rest < slotRadix t * (valRev rest + 1) := by
      rw [Nat.mul_add, Nat.mul_one]
      omega
    exact lt_of_lt_of_le h3 (Nat.mul_le_mul_left _ h2)

theorem valRev_eq_zero (l : List (Bool × Nat)) (h : ∀ p ∈ l, p.2 = 0) :
    valRev l = 0 := by
  induction l with
  | nil => rw [valRev]
  | cons p rest ih =>
    obtain ⟨t, v⟩ := p
    have hv : v = 0 := h _ (List.mem_cons_self _ _)
    have hrest := ih (fun q hq => h q (List.mem_cons_of_mem _ hq))
    rw [valRev, hrest, hv]
    simp

theorem odoIncRev_none_iff (l : List (Bool × Nat)) (h : pairValid l) :
    odoIncRev l = none ↔ valRev l + 1 = radProd l := by
  induction l with
  | nil =>
    rw [odoIncRev, valRev, radProd]
    simp
  | cons p rest ih =>
    obtain ⟨t, v⟩ := p
    have hv : v < slotRadix t := h _ (List.mem_cons_self _ _)
    have hrest : pairValid rest := fun q hq => h q (List.mem_cons_of_mem _ hq)
    have hlt : valRev rest + 1 ≤ radProd rest := valRev_lt rest hrest
    have e1 : valRev ((t, v) :: rest) = v + slotRadix t * valRev rest := rfl
    have e2 : radProd ((t, v) :: rest) = slotRadix t * radProd rest := by
      rw [radProd, List.map_cons, List.prod_cons]
      rfl
    rw [odoIncRev]
    by_cases hc : v + 1 < slotRadix t
    · rw [if_pos hc]
      have hstrict : valRev ((t, v) :: rest) + 1 < radProd ((t, v) :: rest) := by
        have hmul : slotRadix t * (valRev rest + 1) ≤ slotRadix t * radProd rest :=
          Nat.mul_le_mul_left _ hlt
        rw [Nat.mul_add, Nat.mul_one] at hmul
        rw [e1, e2]
        omega
      constructor
      · intro hsome
        exact absurd hsome (by simp)
      · intro heq
        exact absurd heq (Nat.ne_of_lt hstrict)
    · rw [if_neg hc]
      have hveq : v + 1 = slotRadix t := by omega
      rw [Option.map_eq_none', ih hrest, e1, e2]
      constructor
      · intro he
        rw [← he, Nat.mul_add, Nat.mul_one]
        omega
      · intro he
        have h1 : slotRadix t * (valRev rest + 1) = slotRadix t * radProd rest := by
          rw [Nat.mul_add, Nat.mul_one]
          omega
        exact Nat.eq_of_mul_eq_mul_left (slotRadix_pos t) h1

theorem zip_cons_eq (a : Bool) (b : Nat) (l : List Bool) (m : List Nat) :
    (a :: l).zip (b :: m) = (a, b) :: l.zip m := rfl

theorem zipFstSnd (l : List (Bool × Nat)) :
    (l.map Prod.fst).zip (l.map Prod.snd) = l := by
  induction l with
  | nil => rfl
  | cons p rest ih =>
    rw [List.map_cons, List.map_cons, List.zip_cons_cons, ih]

theorem odoIncRev_some (l : List (Bool × Nat)) (vs : List Nat)
    (h : pairValid l) (he : odoIncRev l = some vs) :
    vs.length = l.length ∧ pairValid ((l.map Prod.fst).zip vs) ∧
      valRev ((l.map Prod.fst).zip vs) = valRev l + 1 := by
  induction l generalizing vs with
  | nil =>
    rw [odoIncRev] at he
    exact absurd he (by simp)
  | cons p rest ih =>
    obtain ⟨t, v⟩ := p
    have hv : v < slotRadix t := h _ (List.mem_cons_self _ _)
    have hrest : pairValid rest := fun q hq => h q (List.mem_cons_of_mem _ hq)
    rw [odoIncRev] at he
    by_cases hc : v + 1 < slotRadix t
    · rw [if_pos hc] at he
      have hvs : vs = (v + 1) :: rest.map Prod.snd := (Option.some.inj he).symm
      subst hvs
      refine ⟨by simp, ?_, ?_⟩
      · simp only [List.map_cons]
        rw [zip_cons_eq, zipFstSnd]
        intro q hq
        rcases List.mem_cons.mp hq with rfl | hq
        · exact hc
        · exact h q (List.mem_cons_of_mem _ hq)
      · simp only [List.map_cons]
        rw [zip_cons_eq, zipFstSnd]
        simp only [valRev]
        omega
    · rw [if_neg hc] at he
      rcases Option.map_eq_some'.mp he with ⟨vs2, hrec, hvs⟩
      subst hvs
      obtain ⟨l1, l2, l3⟩ := ih vs2 hrest hrec
      refine ⟨by simp [l1], ?_, ?_⟩
      · simp only [List.map_cons]
        rw [zip_cons_eq]
        intro q hq
        rcases List.mem_cons.mp hq with rfl | hq
        · exact slotRadix_pos t
        · exact l2 q hq
      · simp only [List.map_cons]
        rw [zip_cons_eq]
        simp only [valRev]
        rw [l3, Nat.mul_add, Nat.mul_one]
        omega

theorem valRev_injective :
    ∀ (l1 l2 : List (Bool × Nat)), pairValid l1 → pairValid l2 →
      l1.map Prod.fst = l2.map Prod.fst → valRev l1 = valRev l2 → l1 = l2 := by
  intro l1
  induction l1 with
  | nil =>
    intro l2 _ _ hm _
    cases l2 with
    | nil => rfl
    | cons q r2 => simp at hm
  | cons p r1 ih =>
    obtain ⟨t, v⟩ := p
    intro l2 h1 h2 hm hv
    cases l2 with
    | nil => simp at hm
    | cons q r2 =>
      obtain ⟨t2, v2⟩ := q
      simp only [List.map_cons, List.cons.injEq] at hm
      obtain ⟨rfl, hm2⟩ := hm
      rw [valRev, valRev] at hv
      have hv1 : v < slotRadix t := h1 _ (List.mem_cons_self _ _)
      have hv2 : v2 < slotRadix t := h2 _ (List.mem_cons_self _ _)
      have e1 : (v + slotRadix t * valRev r1) % slotRadix t = v := by
        rw [Nat.add_mul_mod_self_left, Nat.mod_eq_of_lt hv1]
      have e2 : (v2 + slotRadix t * valRev r2) % slotRadix t = v2 := by
        rw [Nat.add_mul_mod_self_left, Nat.mod_eq_of_lt hv2]
      rw [hv] at e1
      have hveq : v = v2 := e1.symm.trans e2
      subst hveq
      have hmul : slotRadix t * valRev r1 = slotRadix t * valRev r2 := by omega
      have hrest : valRev r1 = valRev r2 :=
        Nat.eq_of_mul_eq_mul_left (slotRadix_pos t) hmul
      rw [ih r2 (fun q hq => h1 q (List.mem_cons_of_mem _ hq))
        (fun q hq => h2 q (List.mem_cons_of_mem _ hq)) hm2 hrest]

theorem templateKinds_cons (c : Char) (cs : List Char) :
    templateKinds (c :: cs) =
      if c.isDigit || c.isLower then c.isDigit :: templateKinds cs
      else templateKinds cs := by
  rw [templateKinds, templateKinds, List.filter_cons]
  by_cases h : (c.isDigit || c.isLower) = true
  · rw [if_pos h, if_pos h, List.map_cons]
  · rw [if_neg h, if_neg h]

theorem slotChar_inj (t : Bool) :
    ∀ v < slotRadix t, ∀ w < slotRadix t, slotChar t v = slotChar t w → v = w := by
  cases t <;> decide

theorem renderCandidate_inj :
    ∀ (tpl : List Char) (vs ws : List Nat),
      vs.length = (templateKinds tpl).length → ws.length = (templateKinds tpl).length →
      pairValid ((templateKinds tpl).zip vs) → pairValid ((templateKinds tpl).zip ws) →
      renderCandidate tpl vs = renderCandidate tpl ws → vs = ws := by
  intro tpl
  induction tpl with
  | nil =>
    intro vs ws h1 h2 _ _ _
    rw [show templateKinds [] = [] from rfl, List.length_nil] at h1 h2
    rw [List.length_eq_zero.mp h1, List.length_eq_zero.mp h2]
  | cons c cs ih =>
    intro vs ws h1 h2 hp1 hp2 hre
    by_cases hc : (c.isDigit || c.isLower) = true
    · rw [templateKinds_cons, if_pos hc] at h1 h2 hp1 hp2
      cases vs with
      | nil =>
        rw [List.length_nil, List.length_cons] at h1
        exact absurd h1.symm (Nat.succ_ne_zero _)
      | cons v vs2 =>
        cases ws with
        | nil =>
          rw [List.length_nil, List.length_cons] at h2
          exact absurd h2.symm (Nat.succ_ne_zero _)
        | cons w ws2 =>
          simp only [renderCandidate] at hre
          rw [if_pos hc, if_pos hc] at hre
          injection hre with hhead htail
          rw [zip_cons_eq] at hp1 hp2
          have hv : v < slotRadix c.isDigit := hp1 _ (List.mem_cons_self _ _)
          have hw : w < slotRadix c.isDigit := hp2 _ (List.mem_cons_self _ _)
          have hvw : v = w := slotChar_inj c.isDigit v hv w hw hhead
          subst hvw
          rw [List.length_cons, List.length_cons] at h1 h2
          rw [ih vs2 ws2 (Nat.succ.inj h1) (Nat.succ.inj h2)
            (fun q hq => hp1 q (List.mem_cons_of_mem _ hq))
            (fun q hq => hp2 q (List.mem_cons_of_mem _ hq)) htail]
    · rw [templateKinds_cons, if_neg hc] at h1 h2 hp1 hp2
      cases vs with
      | nil =>
        cases ws with
        | nil => rfl
        | cons w ws2 =>
          rw [List.length_nil] at h1
          rw [List.length_cons] at h2
          omega
      | cons v vs2 =>
        cases ws with
        | nil =>
          rw [List.length_nil] at h2
          rw [List.length_cons] at h1
          omega
        | cons w ws2 =>
          simp only [renderCandidate] at hre
          rw [if_neg hc, if_neg hc] at hre
          injection hre with hhead htail
          exact ih (v :: vs2) (w :: ws2) h1 h2 hp1 hp2 htail

theorem zip_reverse :
    ∀ (l : List Bool) (m : List Nat), l.length = m.length →
      (l.zip m).reverse = l.reverse.zip m.reverse := by
  intro l
  induction l with
  | nil =>
    intro m h
    cases m with
    | nil => rfl
    | cons b m2 => simp at h
  | cons a l2 ih =>
    intro m h
    cases m with
    | nil => simp at h
    | cons b m2 =>
      rw [List.length_cons, List.length_cons] at h
      have h2 : l2.length = m2.length := Nat.succ.inj h
      rw [zip_cons_eq, List.reverse_cons, List.reverse_cons, List.reverse_cons, ih m2 h2,
        List.zip_append (by simp [h2])]
      rfl

theorem radProd_zip (kinds : List Bool) (vals : List Nat) (h : vals.length = kinds.length) :
    radProd ((kinds.zip vals).reverse) = (kinds.map slotRadix).prod := by
  rw [radProd_reverse, radProd]
  have h1 : (kinds.zip vals).map (fun p => slotRadix p.1) =
      ((kinds.zip vals).map Prod.fst).map slotRadix := by
    rw [List.map_map]
    rfl
  rw [h1, List.map_fst_zip kinds vals (by omega)]

theorem odoNext_step (template : List Char) (st : OdoState)
    (hlen : st.values.length = (templateKinds template).length)
    (hval : pairValid ((templateKinds template).zip st.values))
    (hex : st.exhausted = false) :
    (odoNext template st).2 = some (renderCandidate template st.values) ∧
      ((stVal template st + 1 = totalCombinationsOf template ∧
          (odoNext template st).1 = ⟨st.values, true⟩) ∨
        (stVal template st + 1 < totalCombinationsOf template ∧
          (odoNext template st).1.exhausted = false ∧
          (odoNext template st).1.values.length = (templateKinds template).length ∧
          pairValid ((templateKinds template).zip (odoNext template st).1.values) ∧
          stVal template (odoNext template st).1 = stVal template st + 1)) := by
  have hvalR : pairValid (((templateKinds template).zip st.values).reverse) :=
    (pairValid_reverse _).mpr hval
  have hrad : radProd (((templateKinds template).zip st.values).reverse) =
      totalCombinationsOf template := radProd_zip _ _ hlen
  cases hinc : odoIncRev (((templateKinds template).zip st.values).reverse) with
  | none =>
    have h1 : odoNext template st =
        (⟨st.values, true⟩, some (renderCandidate template st.values)) := by
      rw [odoNext, if_neg (by rw [hex]; exact Bool.false_ne_true), hinc]
    have h2 : stVal template st + 1 = totalCombinationsOf template := by
      have h0 := (odoIncRev_none_iff _ hvalR).mp hinc
      rw [hrad] at h0
      exact h0
    exact ⟨by rw [h1], Or.inl ⟨h2, by rw [h1]⟩⟩
  | some newRev =>
    have h1 : odoNext template st =
        ({ st with values := newRev.reverse }, some (renderCandidate template st.values)) := by
      rw [odoNext, if_neg (by rw [hex]; exact Bool.false_ne_true), hinc]
    obtain ⟨e1, e2, e3⟩ := odoIncRev_some _ newRev hvalR hinc
    have hfst : ((((templateKinds template).zip st.values).reverse).map Prod.fst) =
        (templateKinds template).reverse := by
      rw [List.map_reverse, List.map_fst_zip _ _ (le_of_eq hlen.symm)]
    have hzl : ((templateKinds template).zip st.values).length =
        (templateKinds template).length := by
      rw [List.length_zip, hlen, Nat.min_self]
    have hnlen : newRev.length = (templateKinds template).length := by
      rw [e1, List.length_reverse, hzl]
    have hlen2 : newRev.reverse.length = (templateKinds template).length := by
      rw [List.length_reverse, hnlen]
    have hzip2 : ((templateKinds template).zip newRev.reverse).reverse =
        (templateKinds template).reverse.zip newRev := by
      rw [zip_reverse _ _ hlen2.symm, List.reverse_reverse]
    rw [hfst] at e2 e3
    have hval2 : pairValid ((templateKinds template).zip newRev.reverse) := by
      rw [← pairValid_reverse, hzip2]
      exact e2
    have hsv : stVal template ({ st with values := newRev.reverse } : OdoState) =
        stVal template st + 1 := by
      show valRev (((templateKinds template).zip newRev.reverse).reverse) =
        stVal template st + 1
      rw [hzip2, e3]
      rfl
    have hlt2 : stVal template st + 1 < totalCombinationsOf template := by
      have hv2R : pairValid (((templateKinds template).zip newRev.reverse).reverse) :=
        (pairValid_reverse _).mpr hval2
      have h0 := valRev_lt _ hv2R
      rw [radProd_zip _ _ hlen2, hzip2, e3] at h0
      exact h0
    refine ⟨by rw [h1], Or.inr ⟨hlt2, by rw [h1]; exact hex, by rw [h1]; exact hlen2,
      by rw [h1]; exact hval2, by rw [h1]; exact hsv⟩⟩

theorem odoRun_succ (template : List Char) (st : OdoState) (n : Nat) :
    odoRun template st (n + 1) =
      ((odoRun template (odoNext template st).1 n).1,
        match (odoNext template st).2 with
        | some e => e :: (odoRun template (odoNext template st).1 n).2
        | none => (odoRun template (odoNext template st).1 n).2) := rfl

theorem odoRun_exhausted (template : List Char) :
    ∀ (n : Nat) (st : OdoState), st.exhausted = true → odoRun template st n = (st, []) := by
  intro n
  induction n with
  | zero => intro st _; rw [odoRun]
  | succ n ih =>
    intro st h
    have h1 : odoNext template st = (st, none) := by rw [odoNext, if_pos h]
    rw [odoRun_succ, h1]
    show ((odoRun template st n).1, (odoRun template st n).2) = (st, [])
    rw [ih st h]

theorem odoRun_main (template : List Char) :
    ∀ (n : Nat) (st : OdoState),
      st.values.length = (templateKinds template).length →
      pairValid ((templateKinds template).zip st.values) →
      st.exhausted = false →
      ((odoRun template st n).2.length =
          min n (totalCombinationsOf template - stVal template st)) ∧
        ((odoRun template st n).1.exhausted = true ↔
          totalCombinationsOf template - stVal template st ≤ n) ∧
        (∀ e ∈ (odoRun template st n).2, ∃ vs,
          vs.length = (templateKinds template).length ∧
            pairValid ((templateKinds template).zip vs) ∧
            stVal template st ≤ valRev (((templateKinds template).zip vs).reverse) ∧
            e = renderCandidate template vs) ∧
        (odoRun template st n).2.Nodup := by
  intro n
  induction n with
  | zero =>
    intro st hlen hval hex
    have hlt : stVal template st < totalCombinationsOf template := by
      have h0 := valRev_lt _ ((pairValid_reverse _).mpr hval)
      rw [radProd_zip _ _ hlen] at h0
      exact h0
    rw [odoRun]
    refine ⟨?_, ?_, ?_, List.nodup_nil⟩
    · show (0 : Nat) = min 0 (totalCombinationsOf template - stVal template st)
      omega
    · show st.exhausted = true ↔ totalCombinationsOf template - stVal template st ≤ 0
      rw [hex]
      constructor
      · intro hcontra
        exact absurd hcontra (by simp)
      · intro hle
        exact absurd hle (by omega)
    · intro e he
      exact absurd he (List.not_mem_nil e)
  | succ n ih =>
    intro st hlen hval hex
    obtain ⟨hemit, hcase⟩ := odoNext_step template st hlen hval hex
    rcases hcase with ⟨htot, hst1⟩ | ⟨hlt2, hex2, hlen2, hval2, hsv⟩
    · have hrw : odoRun template st (n + 1) =
          ((⟨st.values, true⟩ : OdoState), [renderCandidate template st.values]) := by
        rw [odoRun_succ, hst1, hemit, odoRun_exhausted template n _ rfl]
      rw [hrw]
      refine ⟨?_, ?_, ?_, List.nodup_singleton _⟩
      · show (1 : Nat) = min (n + 1) (totalCombinationsOf template - stVal template st)
        omega
      · show true = true ↔ totalCombinationsOf template - stVal template st ≤ n + 1
        constructor
        · intro _
          omega
        · intro _
          rfl
      · intro e he
        rcases List.mem_singleton.mp he with rfl
        exact ⟨st.values, hlen, hval, le_rfl, rfl⟩
    · have hrw : odoRun template st (n + 1) =
          ((odoRun template (odoNext template st).1 n).1,
            renderCandidate template st.values ::
              (odoRun template (odoNext template st).1 n).2) := by
        rw [odoRun_succ, hemit]
      obtain ⟨i1, i2, i3, i4⟩ := ih (odoNext template st).1 hlen2 hval2 hex2
      rw [hsv] at i1 i2 i3
      rw [hrw]
      refine ⟨?_, ?_, ?_, ?_⟩
      · show (odoRun template (odoNext template st).1 n).2.length + 1 =
          min (n + 1) (totalCombinationsOf template - stVal template st)
        rw [i1]
        omega
      · show (odoRun template (odoNext template st).1 n).1.exhausted = true ↔
          totalCombinationsOf template - stVal template st ≤ n + 1
        rw [i2]
        omega
      · intro e he
        rcases List.mem_cons.mp he with rfl | he2
        · exact ⟨st.values, hlen, hval, le_rfl, rfl⟩
        · obtain ⟨vs, p1, p2, p3, p4⟩ := i3 e he2
          exact ⟨vs, p1, p2, by omega, p4⟩
      · refine List.nodup_cons.mpr ⟨?_, i4⟩
        intro hmem
        obtain ⟨vs, p1, p2, p3, p4⟩ := i3 _ hmem
        have heqvs := renderCandidate_inj template st.values vs hlen p1 hval p2 p4
        rw [← heqvs] at p3
        have hsv0 : valRev (((templateKinds template).zip st.values).reverse) =
            stVal template st := rfl
        rw [hsv0] at p3
        omega

/-- C10 (modelled from the spec, §4.2): starting from its initial state, the
odometer emits exactly `total_combinations` candidates — `min n total` after
`n` calls — never repeating one, becomes exhausted exactly when all of them
have been emitted, and an exhausted odometer answers `Exhausted` (`none`)
forever with its state unchanged. -/
theorem odometer_spec :
    ∀ (template : List Char) (n : Nat),
      ((odoRun template (odoInit template) n).2.length =
          min n (totalCombinationsOf template)) ∧
        (odoRun template (odoInit template) n).2.Nodup ∧
        ((odoRun template (odoInit template) n).1.exhausted = true ↔
          totalCombinationsOf template ≤ n) ∧
        (∀ st : OdoState, st.exhausted = true → odoNext template st = (st, none)) := by
  intro template n
  have hinit_len : (odoInit template).values.length = (templateKinds template).length := by
    rw [odoInit]
    exact List.length_map _ _
  have hmem0 : ∀ p ∈ (templateKinds template).zip (odoInit template).values, p.2 = 0 := by
    intro p hp
    rw [odoInit] at hp
    have h2 := (List.of_mem_zip hp).2
    rcases List.mem_map.mp h2 with ⟨a, -, ha⟩
    exact ha.symm
  have hinit_val : pairValid ((templateKinds template).zip (odoInit template).values) := by
    intro p hp
    rw [hmem0 p hp]
    exact slotRadix_pos _
  have hzero : stVal template (odoInit template) = 0 := by
    apply valRev_eq_zero
    intro p hp
    exact hmem0 p (List.mem_reverse.mp hp)
  obtain ⟨m1, m2, m3, m4⟩ := odoRun_main template n (odoInit template) hinit_len hinit_val rfl
  rw [hzero, Nat.sub_zero] at m1 m2
  exact ⟨m1, m4, m2, fun st h => by rw [odoNext, if_pos h]⟩

/-- Concrete instance for C10 on the two-slot template `"a9"` (260
combinations): after 260 calls the odometer is exhausted, and a further call
on an exhausted state returns `Exhausted` with the state unchanged. -/
theorem odometer_spec_witness :
    (odoRun "a9".data (odoInit "a9".data) 260).1.exhausted = true ∧
      odoNext "a9".data ⟨[0, 0], true⟩ = (⟨[0, 0], true⟩, none) :=
  ⟨(odometer_spec "a9".data 260).2.2.1.mpr (by decide),
   (odometer_spec "a9".data 0).2.2.2 ⟨[0, 0], true⟩ rfl⟩

/-- Concrete instances for C7: a success with an extracted payload appends
exactly that line, and the `Not extracted` form is the literal one. -/
theorem successLog_spec_witness :
    (testSingleCoupon (fun _ => ProbeOutcome.ok true (some "ABCD1234")) "2024-01-01 00:00:00"
          ⟨[], [], 0, []⟩ "X").1.gotitLines =
        [] ++ [successLine "2024-01-01 00:00:00" "X" (some "ABCD1234")] ∧
      successLine "2024-01-01 00:00:00" "X" none =
        "2024-01-01 00:00:00" ++ " | Test: " ++ "X" ++ " | Displayed: Not extracted" :=
  ⟨(successLog_spec.1 (fun _ => ProbeOutcome.ok true (some "ABCD1234")) "2024-01-01 00:00:00"
      ⟨[], [], 0, []⟩ "X" (some "ABCD1234") rfl).1,
   successLog_spec.2.2.2.1 "2024-01-01 00:00:00" "X"⟩

end CouponV
